import Mathlib

/-!
Verification of the audio analysis / timeline-mixing engine of the
MixToPlay repository (src/services/audioProcessor.ts).

Shallow embedding conventions:
* Audio samples and times are exact rationals (ℚ).  The source operates on
  IEEE floats; every theorem below is about the exact-arithmetic reading of
  the same expressions.
* `getDb(x) = 20*log10(|x|)` (with `-100` for `x = 0`) is only ever compared
  against the integer thresholds -25, -28, -15, -6, all greater than -100.
  For `x ≠ 0` and an integer threshold `t`,
  `20*log10(|x|) > t  ↔  |x|^20 > 10^t`, which is a decidable comparison of
  rationals; `exceedsDb` embeds exactly this test (`x = 0` never passes).
* JavaScript `|0` (ToInt32) and 16-bit stores (ToInt16) truncate toward zero
  and wrap; both are embedded explicitly (`ratTrunc`, `toInt32`, `toInt16`).
* `OfflineAudioContext` rendering is embedded sample-exactly at 44100 Hz with
  floor-index reads of the source buffers (the Web Audio sub-sample
  interpolation is environment-defined; no theorem below depends on it).
-/

namespace MixToPlay

/-- Track categories, from `types.ts` (`TrackType`). -/
inductive TrackType where
  | music
  | jingle
  | commercial
  | voice
  | other
  | openingClosing
deriving DecidableEq, Repr, Inhabited

/-- A decoded audio buffer: per-channel sample arrays plus a sample rate,
mirroring the Web Audio `AudioBuffer` fields the source reads
(`getChannelData`, `sampleRate`, `length`, `duration`, `numberOfChannels`). -/
structure AudioBuffer where
  channels : List (List ℚ)
  sampleRate : ℚ
deriving DecidableEq, Repr, Inhabited

/-- `getChannelData(i)` (out-of-range reads never occur on the paths we model;
a missing channel is the empty array). -/
def AudioBuffer.channelData (b : AudioBuffer) (i : ℕ) : List ℚ :=
  b.channels.getD i []

/-- Frame count of the buffer (all channels share it; the analysis code only
reads channel 0, so we take channel 0's length). -/
def AudioBuffer.frames (b : AudioBuffer) : ℕ :=
  (b.channelData 0).length

/-- `buffer.duration = length / sampleRate`. -/
def AudioBuffer.duration (b : AudioBuffer) : ℚ :=
  (b.frames : ℚ) / b.sampleRate

/-- A track from the library: identity, decoded audio (the decoder collaborator
is external; we carry its result), and category — the fields of `Track` that
`generateMasterBuffer` consumes. -/
structure Track where
  id : String
  buffer : AudioBuffer
  type : TrackType
deriving DecidableEq, Repr

/-- A playlist entry (`PlaylistEntry` in `types.ts`): clip reference, display
name, declared category, and the informational crossfade-duration hint. -/
structure PlaylistEntry where
  trackId : String
  trackName : String
  type : TrackType
  crossfadeDuration : ℚ
deriving DecidableEq, Repr

/-- `AppSettings` from `types.ts`. -/
structure AppSettings where
  targetBlockDuration : ℚ
  commercialsPerBlock : ℚ
  defaultCrossfade : ℚ
  jingleFrequency : ℚ
  globalFadeIn : ℚ
  globalFadeOut : ℚ
deriving DecidableEq, Repr

/-- The dB-threshold test `getDb(data[i]) > thresholdDb` of the source
(`getDb(x) = x === 0 ? -100 : 20*log10(|x|)`), for the integer thresholds the
source uses (all > -100): `x ≠ 0 ∧ 20*log10|x| > t ↔ x ≠ 0 ∧ |x|^20 > 10^t`. -/
def exceedsDb (x : ℚ) (t : ℤ) : Bool :=
  decide (x ≠ 0) && decide ((10 : ℚ) ^ t < |x| ^ (20 : ℕ))

/-- First index of the list satisfying `p` (the forward scan of `findCueIn`). -/
def firstHit (p : ℚ → Bool) : List ℚ → Option ℕ
  | [] => none
  | x :: xs => if p x then some 0 else (firstHit p xs).map (· + 1)

/-- Last index of the list satisfying `p` (the backward scan of `findCueOut`). -/
def lastHit (p : ℚ → Bool) : List ℚ → Option ℕ
  | [] => none
  | x :: xs =>
    match lastHit p xs with
    | some j => some (j + 1)
    | none => if p x then some 0 else none

/-- Backward scan from index `i` down to 0 for the first index whose sample
passes `p` (the loop of `findMixPoint`).  An index at or past the end of the
data reads `undefined` in the source, whose dB test is `NaN > t = false`;
here the bounds guard plays that role. -/
def scanDown (data : List ℚ) (p : ℚ → Bool) : ℕ → Option ℕ
  | 0 => if h : 0 < data.length then
           (if p (data.get ⟨0, h⟩) then some 0 else none)
         else none
  | i + 1 => if h : i + 1 < data.length then
               (if p (data.get ⟨i + 1, h⟩) then some (i + 1) else scanDown data p i)
             else scanDown data p i

/-- `normalizeBuffer`: peak-normalize to `target = 0.89125` (≈ -1 dBFS);
`maxPeak` is the running maximum of `|sample|` over all channels. -/
def maxPeak (b : AudioBuffer) : ℚ :=
  b.channels.foldl (fun m c => c.foldl (fun m x => if |x| > m then |x| else m) m) 0

/-- Gain applied by `normalizeBuffer`: `maxPeak > 0 ? target / maxPeak : 1`. -/
def normGain (b : AudioBuffer) : ℚ :=
  if maxPeak b > 0 then (0.89125 : ℚ) / maxPeak b else 1

/-- `normalizeBuffer` scales every sample of every channel by the gain. -/
def normalizeBuffer (b : AudioBuffer) : AudioBuffer :=
  { channels := b.channels.map (List.map (· * normGain b)),
    sampleRate := b.sampleRate }

/-- `decodeTrack`: decode (external), then normalize. -/
def decodeTrack (t : Track) : AudioBuffer :=
  normalizeBuffer t.buffer

/-- `findCueIn(buffer, -25)`: first channel-0 sample above the threshold,
as a time; 0 if none. -/
def findCueIn (b : AudioBuffer) (thresholdDb : ℤ) : ℚ :=
  match firstHit (fun x => exceedsDb x thresholdDb) (b.channelData 0) with
  | some i => (i : ℚ) / b.sampleRate
  | none => 0

/-- `findCueOut(buffer, -28)`: last channel-0 sample above the threshold, as a
time; the full duration if none (fail-open). -/
def findCueOut (b : AudioBuffer) (thresholdDb : ℤ) : ℚ :=
  match lastHit (fun x => exceedsDb x thresholdDb) (b.channelData 0) with
  | some i => (i : ℚ) / b.sampleRate
  | none => b.duration

/-- `endSample = Math.floor(cueOutTime * buffer.sampleRate)`, the start index
of `findMixPoint`'s backward scan. -/
def mixScanStart (b : AudioBuffer) (cueOutTime : ℚ) : ℤ :=
  ⌊cueOutTime * b.sampleRate⌋

/-- `findMixPoint(buffer, cueOutTime, thresholdDb)`: scan backward from
`endSample`; fallback `max(0, cueOutTime - 2)` when nothing qualifies. -/
def findMixPoint (b : AudioBuffer) (cueOutTime : ℚ) (thresholdDb : ℤ) : ℚ :=
  let endSample := mixScanStart b cueOutTime
  let r := if endSample < 0 then none
           else scanDown (b.channelData 0) (fun x => exceedsDb x thresholdDb) endSample.toNat
  match r with
  | some i => (i : ℚ) / b.sampleRate
  | none => max 0 (cueOutTime - 2)

/-- One element of the `analyzedTracks` array of `generateMasterBuffer`. -/
structure AnalyzedTrack where
  buffer : AudioBuffer
  cueIn : ℚ
  cueOut : ℚ
  mixPoint15 : ℚ
  mixPoint6 : ℚ
  type : TrackType
deriving DecidableEq, Repr

/-- Decode-and-analyze for one resolved track (the loop body of step 1 of
`generateMasterBuffer`). -/
def analyzeTrack (t : Track) : AnalyzedTrack :=
  let b := decodeTrack t
  let cueOut := findCueOut b (-28)
  { buffer := b
    cueIn := findCueIn b (-25)
    cueOut := cueOut
    mixPoint15 := findMixPoint b cueOut (-15)
    mixPoint6 := findMixPoint b cueOut (-6)
    type := t.type }

/-- `new Map(tracks.map(t => [t.id, t])).get(id)`: for duplicate ids the last
entry wins, hence the search over the reversed list. -/
def trackLookup (tracks : List Track) (id : String) : Option Track :=
  tracks.reverse.find? (fun t => t.id == id)

/-- Step 1 of `generateMasterBuffer`: resolve each entry against the track
map, skipping unresolved entries, and analyze the resolved ones in order. -/
def analyzedTracks (playlist : List PlaylistEntry) (tracks : List Track) :
    List AnalyzedTrack :=
  playlist.filterMap (fun e => (trackLookup tracks e.trackId).map analyzeTrack)

/-- A `TimelineEvent` of step 2 of `generateMasterBuffer`. -/
structure TimelineEvent where
  buffer : AudioBuffer
  sourceStart : ℚ
  sourceEnd : ℚ
  destStart : ℚ
  destEnd : ℚ
deriving DecidableEq, Repr, Inhabited

/-- The `effectiveMixPoint` chain of conditionals for clip `c` with optional
successor `next` (only the successor's category is consulted). -/
def effectiveMixPoint (c : AnalyzedTrack) (next : Option AnalyzedTrack) : ℚ :=
  let fadeSlopeDuration := |c.mixPoint15 - c.mixPoint6|
  let tailLength := c.cueOut - c.mixPoint15
  let base :=
    if c.type = TrackType.voice then c.cueOut - 0.5
    else if fadeSlopeDuration < 1.5 then
      (if tailLength > 1.5 then c.cueOut - 1.5 else c.mixPoint15)
    else
      (if tailLength > 6 then c.cueOut - 6 else c.mixPoint15)
  match next with
  | some n => if n.type = TrackType.voice then max c.cueIn (base - 1.5) else base
  | none => base

/-- `safeTimeUntilMix = min(effectiveMixPoint - cueIn, duration)`: the cursor
advance contributed by clip `c`. -/
def safeTimeUntilMix (c : AnalyzedTrack) (next : Option AnalyzedTrack) : ℚ :=
  min (effectiveMixPoint c next - c.cueIn) (c.cueOut - c.cueIn)

/-- The timeline loop of step 2: each clip emits an event at the cursor, then
the cursor advances by its `safeTimeUntilMix` (the successor, when present, is
the next list element). -/
def buildEvents : ℚ → List AnalyzedTrack → List TimelineEvent
  | _, [] => []
  | cursor, c :: rest =>
    { buffer := c.buffer
      sourceStart := c.cueIn
      sourceEnd := c.cueOut
      destStart := cursor
      destEnd := cursor + (c.cueOut - c.cueIn) }
    :: buildEvents (cursor + safeTimeUntilMix c rest.head?) rest

/-- The full event list, cursor initialized to 0. -/
def timelineEvents (ts : List AnalyzedTrack) : List TimelineEvent :=
  buildEvents 0 ts

/-- Gain envelope of one event: with a positive overlap to the successor, hold
1 until `destEnd - overlap` then ramp linearly to 0 at `destEnd`; the last
event gets a fixed 1-second tail fade; otherwise gain stays 1. -/
def eventGain (e : TimelineEvent) (overlapNext : ℚ) (isLast : Bool) (t : ℚ) : ℚ :=
  if 0 < overlapNext then
    if t ≤ e.destEnd - overlapNext then 1
    else if t < e.destEnd then (e.destEnd - t) / overlapNext
    else 0
  else if isLast then
    if t ≤ e.destEnd - 1 then 1
    else if t < e.destEnd then e.destEnd - t
    else 0
  else 1

/-- Read a source buffer at a source-clock time for output channel `ch`
(mono sources feed both output channels; reads use the floor sample index —
the Web Audio resampling interpolation is environment-defined). -/
def sourceSampleAt (b : AudioBuffer) (ch : ℕ) (srcTime : ℚ) : ℚ :=
  let data := if b.channels.length ≤ 1 then b.channelData 0 else b.channelData ch
  let i := ⌊srcTime * b.sampleRate⌋
  if i < 0 then 0 else data.getD i.toNat 0

/-- Contribution of one event to output channel `ch` at master time `t`:
the source plays its trim window starting at `destStart`, through its gain
envelope. -/
def eventContribution (e : TimelineEvent) (overlapNext : ℚ) (isLast : Bool)
    (ch : ℕ) (t : ℚ) : ℚ :=
  if e.destStart ≤ t ∧ t < e.destStart + (e.sourceEnd - e.sourceStart) then
    eventGain e overlapNext isLast t *
      sourceSampleAt e.buffer ch (e.sourceStart + (t - e.destStart))
  else 0

/-- Pair each event with its `overlapNext` (`destEnd - next.destStart`, or 0
for the last event) and an is-last flag, as the render loop computes them. -/
def annotateEvents : List TimelineEvent → List (TimelineEvent × ℚ × Bool)
  | [] => []
  | [e] => [(e, 0, true)]
  | e :: e2 :: rest => (e, e.destEnd - e2.destStart, false) :: annotateEvents (e2 :: rest)

/-- One output sample of the offline render: the additive mix of all event
contributions at master time `k / 44100`. -/
def masterSample (es : List TimelineEvent) (ch k : ℕ) : ℚ :=
  ((annotateEvents es).map (fun a => eventContribution a.1 a.2.1 a.2.2 ch ((k : ℚ) / 44100))).sum

/-- The rendered master: 2 channels of `n` samples at 44100 Hz. -/
def renderMaster (es : List TimelineEvent) (n : ℕ) : AudioBuffer :=
  { channels := [(List.range n).map (masterSample es 0),
                 (List.range n).map (masterSample es 1)]
    sampleRate := 44100 }

/-- `audioContext.createBuffer(numCh, len, rate)`: zero-filled channels. -/
def createBuffer (numCh len : ℕ) (rate : ℚ) : AudioBuffer :=
  { channels := List.replicate numCh (List.replicate len 0)
    sampleRate := rate }

/-- `generateMasterBuffer`: resolve and analyze the playlist; an empty result
yields a 1-second silent stereo buffer; otherwise build the timeline and
render `ceil(totalLength * 44100)` frames at 44100 Hz, `totalLength` being the
last event's `destEnd`. -/
def generateMasterBuffer (playlist : List PlaylistEntry) (tracks : List Track)
    (settings : AppSettings) : AudioBuffer :=
  let ts := analyzedTracks playlist tracks
  if ts.length = 0 then createBuffer 2 44100 44100
  else
    let es := timelineEvents ts
    let totalLength := (es.getLastD default).destEnd
    renderMaster es (⌈totalLength * 44100⌉).toNat

/-- Truncation toward zero (JavaScript `ToInteger` on a finite value). -/
def ratTrunc (q : ℚ) : ℤ :=
  if q < 0 then ⌈q⌉ else ⌊q⌋

/-- JavaScript ToInt32 wrap (the `|0` operator after truncation). -/
def toInt32 (z : ℤ) : ℤ :=
  (z + 2147483648) % 4294967296 - 2147483648

/-- JavaScript ToInt16 wrap (a `DataView.setInt16` / `Int16Array` store after
truncation). -/
def toInt16 (z : ℤ) : ℤ :=
  (z + 32768) % 65536 - 32768

/-- `Math.max(-1, Math.min(1, v))`. -/
def clamp1 (x : ℚ) : ℚ :=
  max (-1) (min 1 x)

/-- The per-sample int16 conversion of `bufferToWav`, exactly as written:
`sample = (0.5 + sample < 0 ? sample*32768 : sample*32767)|0` after clamping,
then stored via `setInt16`.  By operator precedence the condition is
`(0.5 + sample) < 0`. -/
def bufferToWavSample (x : ℚ) : ℤ :=
  let s := clamp1 x
  toInt16 (toInt32 (ratTrunc (if 0.5 + s < 0 then s * 32768 else s * 32767)))

/-- The per-sample int16 conversion of `bufferToMp3`:
`s < 0 ? s * 0x8000 : s * 0x7FFF` after clamping, stored into an `Int16Array`. -/
def bufferToMp3Sample (x : ℚ) : ℤ :=
  let s := clamp1 x
  toInt16 (ratTrunc (if s < 0 then s * 32768 else s * 32767))

/-- Modelled from the spec (for comparison only, not from the source): the
conversion C1 claims for the PCM encoder — clamp, then `×32768` when the
clamped sample is negative, `×32767` otherwise, truncated toward zero. -/
def specWavSample (x : ℚ) : ℤ :=
  let s := clamp1 x
  ratTrunc (if s < 0 then s * 32768 else s * 32767)

/-- Concrete test fixture: a one-channel buffer at 1 Hz whose single sample is
already at the normalization target (so normalization is the identity on it). -/
def peakBuf : AudioBuffer :=
  ⟨[[713 / 800]], 1⟩

/-- Concrete test fixture: a 10-sample buffer at 1 Hz, already at the
normalization target, whose analysis yields cueIn 0, cueOut 9, mixPoint15 2,
mixPoint6 0 (a long, quiet tail behind an early loud onset). -/
def tailBuf : AudioBuffer :=
  ⟨[[713 / 800, 713 / 8000, 713 / 1600, 713 / 8000, 713 / 8000,
     713 / 8000, 713 / 8000, 713 / 8000, 713 / 8000, 713 / 8000]], 1⟩

/-- The list of cursor advances of the timeline loop, in order: clip `i`
contributes `safeTimeUntilMix` of itself with its successor. -/
def cursorSteps : List AnalyzedTrack → List ℚ
  | [] => []
  | c :: rest => safeTimeUntilMix c rest.head? :: cursorSteps rest

/-! ### Helper lemmas about the threshold test and the scanning primitives -/

theorem exceedsDb_mono {x : ℚ} {t t' : ℤ} (h : t ≤ t')
    (hx : exceedsDb x t' = true) : exceedsDb x t = true := by
  unfold exceedsDb at hx ⊢
  simp only [Bool.and_eq_true, decide_eq_true_eq] at hx ⊢
  exact ⟨hx.1, lt_of_le_of_lt (zpow_le_zpow_right₀ (by norm_num) h) hx.2⟩

theorem firstHit_some {p : ℚ → Bool} :
    ∀ {l : List ℚ} {i : ℕ}, firstHit p l = some i →
      ∃ h : i < l.length, p (l.get ⟨i, h⟩) = true := by
  intro l
  induction l with
  | nil => intro i h; simp [firstHit] at h
  | cons x xs ih =>
    intro i h
    cases hpx : p x with
    | true =>
      rw [firstHit, if_pos hpx] at h
      cases h
      exact ⟨by simp, by simpa using hpx⟩
    | false =>
      rw [firstHit, if_neg (by simp [hpx])] at h
      obtain ⟨j, hj, rfl⟩ := Option.map_eq_some'.mp h
      obtain ⟨hlt, hpj⟩ := ih hj
      exact ⟨by simpa using Nat.succ_lt_succ hlt, by simpa using hpj⟩

theorem firstHit_le {p : ℚ → Bool} :
    ∀ {l : List ℚ} {i : ℕ} (h : i < l.length), p (l.get ⟨i, h⟩) = true →
      ∃ j, firstHit p l = some j ∧ j ≤ i := by
  intro l
  induction l with
  | nil => intro i h hp; simp at h
  | cons x xs ih =>
    intro i h hp
    cases hpx : p x with
    | true => exact ⟨0, by rw [firstHit, if_pos hpx], Nat.zero_le _⟩
    | false =>
      cases i with
      | zero => simp at hp; rw [hp] at hpx; cases hpx
      | succ i' =>
        obtain ⟨j, hj, hle⟩ := ih (Nat.lt_of_succ_lt_succ h) (by simpa using hp)
        exact ⟨j + 1, by rw [firstHit, if_neg (by simp [hpx]), hj]; rfl,
          Nat.succ_le_succ hle⟩

theorem lastHit_some {p : ℚ → Bool} :
    ∀ {l : List ℚ} {i : ℕ}, lastHit p l = some i →
      ∃ h : i < l.length, p (l.get ⟨i, h⟩) = true := by
  intro l
  induction l with
  | nil => intro i h; simp [lastHit] at h
  | cons x xs ih =>
    intro i h
    rw [lastHit] at h
    cases hxs : lastHit p xs with
    | some j =>
      rw [hxs] at h
      cases h
      obtain ⟨hlt, hpj⟩ := ih hxs
      exact ⟨by simpa using Nat.succ_lt_succ hlt, by simpa using hpj⟩
    | none =>
      rw [hxs] at h
      cases hpx : p x with
      | true =>
        rw [if_pos hpx] at h
        cases h
        exact ⟨by simp, by simpa using hpx⟩
      | false => rw [if_neg (by simp [hpx])] at h; cases h

theorem lastHit_ge {p : ℚ → Bool} :
    ∀ {l : List ℚ} {i : ℕ} (h : i < l.length), p (l.get ⟨i, h⟩) = true →
      ∃ j, lastHit p l = some j ∧ i ≤ j := by
  intro l
  induction l with
  | nil => intro i h hp; simp at h
  | cons x xs ih =>
    intro i h hp
    cases i with
    | zero =>
      cases hxs : lastHit p xs with
      | some j => exact ⟨j + 1, by rw [lastHit, hxs], Nat.zero_le _⟩
      | none =>
        refine ⟨0, ?_, le_refl 0⟩
        rw [lastHit, hxs, if_pos (by simpa using hp)]
    | succ i' =>
      obtain ⟨j, hj, hle⟩ := ih (Nat.lt_of_succ_lt_succ h) (by simpa using hp)
      exact ⟨j + 1, by rw [lastHit, hj], Nat.succ_le_succ hle⟩

theorem scanDown_some {data : List ℚ} {p : ℚ → Bool} :
    ∀ {n m : ℕ}, scanDown data p n = some m →
      ∃ h : m < data.length, p (data.get ⟨m, h⟩) = true ∧ m ≤ n := by
  intro n
  induction n with
  | zero =>
    intro m h
    rw [scanDown] at h
    by_cases h0 : 0 < data.length
    · rw [dif_pos h0] at h
      by_cases hp : p (data.get ⟨0, h0⟩)
      · rw [if_pos hp] at h; cases h; exact ⟨h0, hp, le_refl 0⟩
      · rw [if_neg hp] at h; cases h
    · rw [dif_neg h0] at h; cases h
  | succ n ih =>
    intro m h
    rw [scanDown] at h
    by_cases hn : n + 1 < data.length
    · rw [dif_pos hn] at h
      by_cases hp : p (data.get ⟨n + 1, hn⟩)
      · rw [if_pos hp] at h; cases h; exact ⟨hn, hp, le_refl _⟩
      · rw [if_neg hp] at h
        obtain ⟨hlt, hpm, hle⟩ := ih h
        exact ⟨hlt, hpm, Nat.le_succ_of_le hle⟩
    · rw [dif_neg hn] at h
      obtain ⟨hlt, hpm, hle⟩ := ih h
      exact ⟨hlt, hpm, Nat.le_succ_of_le hle⟩

theorem scanDown_oob (data : List ℚ) (p : ℚ → Bool) :
    ∀ {n : ℕ}, data.length ≤ n →
      scanDown data p n = scanDown data p (data.length - 1) := by
  intro n
  induction n with
  | zero =>
    intro h
    have : data.length = 0 := Nat.le_zero.mp h
    rw [this]
  | succ n ih =>
    intro h
    rw [scanDown, dif_neg (by omega)]
    rcases Nat.lt_or_ge n data.length with hlt | hge
    · have hlen : data.length = n + 1 := by omega
      rw [hlen, Nat.add_sub_cancel]
    · exact ih hge

/-! ### C4 — cue-point ordering -/

/-- C4: for every decoded buffer (with a positive sample rate), the cue points
of the analysis satisfy `0 ≤ cueIn ≤ cueOut ≤ duration`, including the
degenerate cases where no sample exceeds the -25 dB cue-in threshold
(`cueIn = 0`), where no sample exceeds the -28 dB cue-out threshold
(`cueOut = duration`, fail-open), and all-loud buffers. -/
theorem cuePoints_ordered (b : AudioBuffer) (hsr : 0 < b.sampleRate) :
    0 ≤ findCueIn b (-25) ∧ findCueIn b (-25) ≤ findCueOut b (-28) ∧
      findCueOut b (-28) ≤ b.duration := by
  have hdur : (0 : ℚ) ≤ b.duration :=
    div_nonneg (by positivity) hsr.le
  have hco_nonneg : 0 ≤ findCueOut b (-28) := by
    unfold findCueOut
    cases h : lastHit (fun x => exceedsDb x (-28)) (b.channelData 0) with
    | none => exact hdur
    | some j => positivity
  refine ⟨?_, ?_, ?_⟩
  · unfold findCueIn
    cases h : firstHit (fun x => exceedsDb x (-25)) (b.channelData 0) with
    | none => exact le_refl 0
    | some i => positivity
  · unfold findCueIn
    cases h : firstHit (fun x => exceedsDb x (-25)) (b.channelData 0) with
    | none => exact hco_nonneg
    | some i =>
      obtain ⟨hi, hp⟩ := firstHit_some h
      have hp28 : exceedsDb ((b.channelData 0).get ⟨i, hi⟩) (-28) = true :=
        exceedsDb_mono (by norm_num) hp
      obtain ⟨j, hj, hij⟩ := lastHit_ge (p := fun x => exceedsDb x (-28)) hi hp28
      unfold findCueOut
      rw [hj]
      exact (div_le_div_iff_of_pos_right hsr).mpr (by exact_mod_cast hij)
  · unfold findCueOut
    cases h : lastHit (fun x => exceedsDb x (-28)) (b.channelData 0) with
    | none => exact le_refl _
    | some j =>
      obtain ⟨hj, -⟩ := lastHit_some h
      unfold AudioBuffer.duration AudioBuffer.frames
      exact (div_le_div_iff_of_pos_right hsr).mpr (by exact_mod_cast hj.le)

/-- Witness for C4 at a concrete two-sample buffer. -/
theorem cuePoints_ordered_witness :
    (0 : ℚ) < (1 : ℚ) ∧
      (0 ≤ findCueIn ⟨[[1, 0]], 1⟩ (-25) ∧
        findCueIn ⟨[[1, 0]], 1⟩ (-25) ≤ findCueOut ⟨[[1, 0]], 1⟩ (-28) ∧
        findCueOut ⟨[[1, 0]], 1⟩ (-28) ≤ AudioBuffer.duration ⟨[[1, 0]], 1⟩) :=
  ⟨by norm_num, cuePoints_ordered ⟨[[1, 0]], 1⟩ (by norm_num)⟩

/-! ### Integer-conversion helper lemmas -/

theorem clamp1_mem (x : ℚ) : -1 ≤ clamp1 x ∧ clamp1 x ≤ 1 := by
  unfold clamp1
  constructor
  · exact le_max_left _ _
  · exact max_le (by norm_num) (min_le_left _ _)

theorem le_ratTrunc {a : ℤ} {q : ℚ} (h : (a : ℚ) ≤ q) : a ≤ ratTrunc q := by
  unfold ratTrunc
  split
  · exact_mod_cast h.trans (Int.le_ceil q)
  · exact Int.le_floor.mpr h

theorem ratTrunc_le {a : ℤ} {q : ℚ} (h : q ≤ (a : ℚ)) : ratTrunc q ≤ a := by
  unfold ratTrunc
  split
  · exact Int.ceil_le.mpr h
  · calc ⌊q⌋ ≤ ⌊(a : ℚ)⌋ := Int.floor_mono h
      _ = a := Int.floor_intCast a

theorem toInt32_eq {z : ℤ} (h1 : -2147483648 ≤ z) (h2 : z < 2147483648) :
    toInt32 z = z := by
  unfold toInt32
  have h : (z + 2147483648) % 4294967296 = z + 2147483648 :=
    Int.emod_eq_of_lt (by omega) (by omega)
  omega

theorem toInt16_eq {z : ℤ} (h1 : -32768 ≤ z) (h2 : z < 32768) :
    toInt16 z = z := by
  unfold toInt16
  have h : (z + 32768) % 65536 = z + 32768 :=
    Int.emod_eq_of_lt (by omega) (by omega)
  omega

theorem bufferToWavSample_def (x : ℚ) :
    bufferToWavSample x = toInt16 (toInt32 (ratTrunc
      (if (0.5 : ℚ) + clamp1 x < 0 then clamp1 x * 32768 else clamp1 x * 32767))) :=
  rfl

theorem bufferToMp3Sample_def (x : ℚ) :
    bufferToMp3Sample x = toInt16 (ratTrunc
      (if clamp1 x < 0 then clamp1 x * 32768 else clamp1 x * 32767)) :=
  rfl

theorem specWavSample_def (x : ℚ) :
    specWavSample x = ratTrunc
      (if clamp1 x < 0 then clamp1 x * 32768 else clamp1 x * 32767) :=
  rfl

/-! ### C1 — PCM sample scaling -/

/-- C1 (counterexample): at the clamped sample -1/2, the code's conversion
(`(0.5 + sample < 0 ? sample*32768 : sample*32767)|0`, condition
`sample < -0.5` by operator precedence) yields -16383, while the claimed
rule (`sample < 0` selects ×32768) yields -16384. -/
theorem wavSample_claim_cex :
    bufferToWavSample (-(1 / 2)) = -16383 ∧ specWavSample (-(1 / 2)) = -16384 := by
  have h1 : clamp1 (-(1 / 2)) = -(1 / 2) := by
    unfold clamp1; norm_num
  have h2 : ratTrunc (-(1 / 2) * 32767) = -16383 := by
    unfold ratTrunc
    rw [if_pos (by norm_num), Int.ceil_eq_iff]
    norm_num
  have h3 : ratTrunc (-(1 / 2) * 32768) = -16384 := by
    unfold ratTrunc
    rw [if_pos (by norm_num), Int.ceil_eq_iff]
    norm_num
  refine ⟨?_, ?_⟩
  · rw [bufferToWavSample_def, h1, if_neg (by norm_num), h2,
      toInt32_eq (by omega) (by omega), toInt16_eq (by omega) (by omega)]
  · rw [specWavSample_def, h1, if_pos (by norm_num), h3]

/-- C1 (amended): every sample of the PCM encoder is clamped to [-1,1] and
converted to int16 as: if the clamped sample is < -0.5 (the code's
`0.5 + sample < 0`), int16 = truncate(sample × 32768); otherwise
int16 = truncate(sample × 32767), truncating toward zero; the result always
lies within the int16 range, so the `|0` and `setInt16` wraps are lossless. -/
theorem wavSample_formula (x : ℚ) :
    bufferToWavSample x
      = (if clamp1 x < -(1 / 2) then ratTrunc (clamp1 x * 32768)
         else ratTrunc (clamp1 x * 32767))
    ∧ -32768 ≤ bufferToWavSample x ∧ bufferToWavSample x ≤ 32767 := by
  obtain ⟨hl, hr⟩ := clamp1_mem x
  rw [bufferToWavSample_def]
  by_cases hc : clamp1 x < -(1 / 2)
  · have hc' : (0.5 : ℚ) + clamp1 x < 0 := by linarith
    rw [if_pos hc', if_pos hc]
    have hb1 := le_ratTrunc (a := -32768)
      (show ((-32768 : ℤ) : ℚ) ≤ clamp1 x * 32768 by push_cast; linarith)
    have hb2 := ratTrunc_le (a := -16384)
      (show clamp1 x * 32768 ≤ ((-16384 : ℤ) : ℚ) by push_cast; linarith)
    rw [toInt32_eq (by omega) (by omega), toInt16_eq (by omega) (by omega)]
    exact ⟨rfl, by omega, by omega⟩
  · have hc' : ¬ ((0.5 : ℚ) + clamp1 x < 0) := by push_neg at hc ⊢; linarith
    rw [if_neg hc', if_neg hc]
    push_neg at hc
    have hb1 := le_ratTrunc (a := -16384)
      (show ((-16384 : ℤ) : ℚ) ≤ clamp1 x * 32767 by push_cast; linarith)
    have hb2 := ratTrunc_le (a := 32767)
      (show clamp1 x * 32767 ≤ ((32767 : ℤ) : ℚ) by push_cast; linarith)
    rw [toInt32_eq (by omega) (by omega), toInt16_eq (by omega) (by omega)]
    exact ⟨rfl, by omega, by omega⟩

/-! ### C3 — MP3 path versus PCM path sample conversion -/

/-- C3 (counterexample): at sample -1/4 the MP3 path (`s < 0` selects ×32768)
produces -8192 while the PCM path (`s < -0.5` selects ×32768) produces -8191,
so the two encoder paths do not agree on all samples. -/
theorem mp3_wav_disagree_cex :
    bufferToMp3Sample (-(1 / 4)) = -8192 ∧ bufferToWavSample (-(1 / 4)) = -8191 := by
  have h1 : clamp1 (-(1 / 4)) = -(1 / 4) := by
    unfold clamp1; norm_num
  have h2 : ratTrunc (-(1 / 4) * 32768) = -8192 := by
    unfold ratTrunc
    rw [if_pos (by norm_num), Int.ceil_eq_iff]
    norm_num
  have h3 : ratTrunc (-(1 / 4) * 32767) = -8191 := by
    unfold ratTrunc
    rw [if_pos (by norm_num), Int.ceil_eq_iff]
    norm_num
  refine ⟨?_, ?_⟩
  · rw [bufferToMp3Sample_def, h1, if_pos (by norm_num), h2,
      toInt16_eq (by omega) (by omega)]
  · rw [bufferToWavSample_def, h1, if_neg (by norm_num), h3,
      toInt32_eq (by omega) (by omega), toInt16_eq (by omega) (by omega)]

/-- C3 (amended): the MP3 path computes exactly the spec formula (clamp, then
×32768 when negative / ×32767 otherwise, truncated toward zero), and it agrees
with the PCM path for every sample whose clamped value is < -0.5 or ≥ 0; the
two paths differ only on clamped samples in [-0.5, 0). -/
theorem mp3_wav_agree (x : ℚ) :
    bufferToMp3Sample x = specWavSample x
    ∧ ((clamp1 x < -(1 / 2) ∨ 0 ≤ clamp1 x) →
        bufferToMp3Sample x = bufferToWavSample x) := by
  obtain ⟨hl, hr⟩ := clamp1_mem x
  constructor
  · rw [bufferToMp3Sample_def, specWavSample_def]
    by_cases hc : clamp1 x < 0
    · rw [if_pos hc]
      have hb1 := le_ratTrunc (a := -32768)
        (show ((-32768 : ℤ) : ℚ) ≤ clamp1 x * 32768 by push_cast; linarith)
      have hb2 := ratTrunc_le (a := 0)
        (show clamp1 x * 32768 ≤ ((0 : ℤ) : ℚ) by push_cast; linarith)
      exact toInt16_eq (by omega) (by omega)
    · rw [if_neg hc]
      push_neg at hc
      have hb1 := le_ratTrunc (a := 0)
        (show ((0 : ℤ) : ℚ) ≤ clamp1 x * 32767 by push_cast; linarith)
      have hb2 := ratTrunc_le (a := 32767)
        (show clamp1 x * 32767 ≤ ((32767 : ℤ) : ℚ) by push_cast; linarith)
      exact toInt16_eq (by omega) (by omega)
  · intro hx
    rw [bufferToMp3Sample_def, bufferToWavSample_def]
    rcases hx with hc | hc
    · have h0 : clamp1 x < 0 := by linarith
      have h0' : (0.5 : ℚ) + clamp1 x < 0 := by linarith
      rw [if_pos h0, if_pos h0']
      have hb1 := le_ratTrunc (a := -32768)
        (show ((-32768 : ℤ) : ℚ) ≤ clamp1 x * 32768 by push_cast; linarith)
      have hb2 := ratTrunc_le (a := 0)
        (show clamp1 x * 32768 ≤ ((0 : ℤ) : ℚ) by push_cast; linarith)
      rw [toInt32_eq (by omega) (by omega)]
    · have h0 : ¬ (clamp1 x < 0) := not_lt.mpr hc
      have h0' : ¬ ((0.5 : ℚ) + clamp1 x < 0) := by push_neg; linarith
      rw [if_neg h0, if_neg h0']
      have hb1 := le_ratTrunc (a := 0)
        (show ((0 : ℤ) : ℚ) ≤ clamp1 x * 32767 by push_cast; linarith)
      have hb2 := ratTrunc_le (a := 32767)
        (show clamp1 x * 32767 ≤ ((32767 : ℤ) : ℚ) by push_cast; linarith)
      rw [toInt32_eq (by omega) (by omega)]

/-- Witness for C3 at the concrete sample 3/4 (clamped value ≥ 0). -/
theorem mp3_wav_agree_witness :
    bufferToMp3Sample (3 / 4) = bufferToWavSample (3 / 4) :=
  (mp3_wav_agree (3 / 4)).2 (Or.inr (by unfold clamp1; norm_num))

/-! ### C8 — bounds of the findMixPoint backward scan -/

/-- C8 (counterexample): for the all-quiet one-sample buffer, the fail-open
cue-out equals the full duration, and the backward scan of `findMixPoint`
starts at index `floor(cueOut * sampleRate) = length`, one past the end of
the channel-0 data — not a valid index. -/
theorem mixScan_start_oob_cex :
    ¬ (mixScanStart ⟨[[0]], 1⟩ (findCueOut ⟨[[0]], 1⟩ (-28))
        < ((AudioBuffer.channelData ⟨[[0]], 1⟩ 0).length : ℤ)) := by
  have hlh : lastHit (fun x => exceedsDb x (-28)) [0] = none := by
    simp [lastHit, exceedsDb]
  have h0 : findCueOut ⟨[[0]], 1⟩ (-28) = 1 := by
    unfold findCueOut
    rw [show AudioBuffer.channelData ⟨[[0]], 1⟩ 0 = [0] from rfl, hlh]
    unfold AudioBuffer.duration AudioBuffer.frames AudioBuffer.channelData
    norm_num
  rw [h0]
  unfold mixScanStart AudioBuffer.channelData
  norm_num

/-- C8 (amended): the backward scan of `findMixPoint` starts at an index that
never exceeds the data length; it is a valid index (< length) whenever some
sample exceeded the -28 dB cue-out threshold, and in the fail-open fallback
case the start index is exactly the length, whose read fails the threshold
test (the source reads `undefined`, and `NaN > t` is false), so any scan from
an out-of-bounds start equals the scan from the last valid index. -/
theorem mixScan_start_bounds (b : AudioBuffer) (hsr : 0 < b.sampleRate) (t : ℤ) :
    mixScanStart b (findCueOut b (-28)) ≤ ((b.channelData 0).length : ℤ)
    ∧ ((lastHit (fun x => exceedsDb x (-28)) (b.channelData 0)).isSome = true →
        mixScanStart b (findCueOut b (-28)) < ((b.channelData 0).length : ℤ))
    ∧ (∀ n : ℕ, (b.channelData 0).length ≤ n →
        scanDown (b.channelData 0) (fun x => exceedsDb x t) n
          = scanDown (b.channelData 0) (fun x => exceedsDb x t)
              ((b.channelData 0).length - 1)) := by
  have hsr' : b.sampleRate ≠ 0 := ne_of_gt hsr
  refine ⟨?_, ?_, fun n hn => scanDown_oob _ _ hn⟩
  · unfold mixScanStart findCueOut
    cases h : lastHit (fun x => exceedsDb x (-28)) (b.channelData 0) with
    | none =>
      unfold AudioBuffer.duration AudioBuffer.frames
      rw [div_mul_cancel₀ _ hsr', Int.floor_natCast]
    | some j =>
      obtain ⟨hj, -⟩ := lastHit_some (p := fun x => exceedsDb x (-28)) h
      rw [div_mul_cancel₀ _ hsr', Int.floor_natCast]
      exact_mod_cast hj.le
  · intro hsome
    unfold mixScanStart findCueOut
    cases h : lastHit (fun x => exceedsDb x (-28)) (b.channelData 0) with
    | none => rw [h] at hsome; cases hsome
    | some j =>
      obtain ⟨hj, -⟩ := lastHit_some (p := fun x => exceedsDb x (-28)) h
      rw [div_mul_cancel₀ _ hsr', Int.floor_natCast]
      exact_mod_cast hj

/-- Witness for C8 at a concrete loud one-sample buffer (cue-out found). -/
theorem mixScan_start_bounds_witness :
    mixScanStart ⟨[[1]], 1⟩ (findCueOut ⟨[[1]], 1⟩ (-28))
      < ((AudioBuffer.channelData ⟨[[1]], 1⟩ 0).length : ℤ) :=
  (mixScan_start_bounds ⟨[[1]], 1⟩ (by norm_num) (-15)).2.1 (by
    have : AudioBuffer.channelData ⟨[[1]], 1⟩ 0 = [1] := rfl
    rw [this]
    simp [lastHit, exceedsDb]
    norm_num)

/-! ### C5 — peak normalization -/

theorem peakStep_eq_max (m x : ℚ) :
    (if |x| > m then |x| else m) = max m |x| := by
  rcases le_or_lt |x| m with h | h
  · rw [if_neg (not_lt.mpr h), max_eq_left h]
  · rw [if_pos h, max_eq_right h.le]

theorem maxPeak_foldl (b : AudioBuffer) :
    maxPeak b
      = b.channels.foldl (fun m c => c.foldl (fun m x => max m |x|) m) 0 := by
  unfold maxPeak
  simp only [peakStep_eq_max]

theorem foldl_max_scale (g : ℚ) (hg : 0 ≤ g) (c : List ℚ) :
    ∀ m : ℚ, (c.map (· * g)).foldl (fun m x => max m |x|) (m * g)
      = (c.foldl (fun m x => max m |x|) m) * g := by
  induction c with
  | nil => intro m; simp
  | cons x xs ih =>
    intro m
    simp only [List.map_cons, List.foldl_cons]
    have hstep : max (m * g) |x * g| = max m |x| * g := by
      rw [abs_mul, abs_of_nonneg hg]
      exact (max_mul_of_nonneg _ _ hg).symm
    rw [hstep]
    exact ih (max m |x|)

theorem channelsFold_max_scale (g : ℚ) (hg : 0 ≤ g) (chs : List (List ℚ)) :
    ∀ m : ℚ, (chs.map (List.map (· * g))).foldl
        (fun m c => c.foldl (fun m x => max m |x|) m) (m * g)
      = (chs.foldl (fun m c => c.foldl (fun m x => max m |x|) m) m) * g := by
  induction chs with
  | nil => intro m; simp
  | cons c cs ih =>
    intro m
    simp only [List.map_cons, List.foldl_cons]
    rw [foldl_max_scale g hg c m]
    exact ih _

theorem normGain_nonneg (b : AudioBuffer) : 0 ≤ normGain b := by
  unfold normGain
  by_cases h : maxPeak b > 0
  · rw [if_pos h]
    exact div_nonneg (by norm_num) h.le
  · rw [if_neg h]
    norm_num

theorem maxPeak_normalize (b : AudioBuffer) :
    maxPeak (normalizeBuffer b) = maxPeak b * normGain b := by
  rw [maxPeak_foldl, maxPeak_foldl]
  show (b.channels.map (List.map (· * normGain b))).foldl
      (fun m c => c.foldl (fun m x => max m |x|) m) 0 = _
  calc (b.channels.map (List.map (· * normGain b))).foldl
        (fun m c => c.foldl (fun m x => max m |x|) m) 0
      = (b.channels.map (List.map (· * normGain b))).foldl
          (fun m c => c.foldl (fun m x => max m |x|) m) (0 * normGain b) := by
        rw [zero_mul]
    _ = (b.channels.foldl (fun m c => c.foldl (fun m x => max m |x|) m) 0)
          * normGain b := channelsFold_max_scale _ (normGain_nonneg b) _ 0

theorem le_foldl_max (c : List ℚ) : ∀ m : ℚ, m ≤ c.foldl (fun m x => max m |x|) m := by
  induction c with
  | nil => intro m; simp
  | cons x xs ih =>
    intro m
    simp only [List.foldl_cons]
    exact le_trans (le_max_left m |x|) (ih _)

theorem abs_le_foldl_max :
    ∀ (c : List ℚ) (x : ℚ), x ∈ c →
      ∀ m : ℚ, |x| ≤ c.foldl (fun m x => max m |x|) m := by
  intro c
  induction c with
  | nil => intro x hx; cases hx
  | cons y ys ih =>
    intro x hx m
    simp only [List.foldl_cons]
    rcases List.mem_cons.mp hx with rfl | hmem
    · exact le_trans (le_max_right m |x|) (le_foldl_max ys _)
    · exact ih x hmem _

theorem le_channelsFold (chs : List (List ℚ)) :
    ∀ m : ℚ, m ≤ chs.foldl (fun m c => c.foldl (fun m x => max m |x|) m) m := by
  induction chs with
  | nil => intro m; simp
  | cons c cs ih =>
    intro m
    simp only [List.foldl_cons]
    exact le_trans (le_foldl_max c m) (ih _)

theorem abs_le_channelsFold :
    ∀ (chs : List (List ℚ)) (c : List ℚ), c ∈ chs → ∀ (x : ℚ), x ∈ c →
      ∀ m : ℚ, |x| ≤ chs.foldl (fun m c => c.foldl (fun m x => max m |x|) m) m := by
  intro chs
  induction chs with
  | nil => intro c hc; cases hc
  | cons d ds ih =>
    intro c hc x hx m
    simp only [List.foldl_cons]
    rcases List.mem_cons.mp hc with rfl | hmem
    · exact le_trans (abs_le_foldl_max c x hx m) (le_channelsFold ds _)
    · exact ih c hmem x hx _

theorem maxPeak_pos {b : AudioBuffer} {c : List ℚ} {x : ℚ} (hc : c ∈ b.channels)
    (hx : x ∈ c) (hx0 : x ≠ 0) : 0 < maxPeak b := by
  rw [maxPeak_foldl]
  exact lt_of_lt_of_le (abs_pos.mpr hx0) (abs_le_channelsFold _ _ hc _ hx 0)

theorem foldl_max_of_zeros :
    ∀ (c : List ℚ), (∀ x ∈ c, x = 0) →
      ∀ m : ℚ, 0 ≤ m → c.foldl (fun m x => max m |x|) m = m := by
  intro c
  induction c with
  | nil => intro _ m _; rfl
  | cons x xs ih =>
    intro h m hm
    simp only [List.foldl_cons]
    have hx0 : x = 0 := h x (List.mem_cons_self x xs)
    have hmax : max m |x| = m := by
      rw [hx0, abs_zero, max_eq_left hm]
    rw [hmax]
    exact ih (fun y hy => h y (List.mem_cons_of_mem x hy)) m hm

theorem maxPeak_of_zeros (b : AudioBuffer)
    (h : ∀ c ∈ b.channels, ∀ x ∈ c, x = 0) : maxPeak b = 0 := by
  rw [maxPeak_foldl]
  have : ∀ (chs : List (List ℚ)), (∀ c ∈ chs, ∀ x ∈ c, x = 0) →
      ∀ m : ℚ, 0 ≤ m →
        chs.foldl (fun m c => c.foldl (fun m x => max m |x|) m) m = m := by
    intro chs
    induction chs with
    | nil => intro _ m _; rfl
    | cons c cs ih =>
      intro hz m hm
      simp only [List.foldl_cons]
      rw [foldl_max_of_zeros c (hz c (List.mem_cons_self c cs)) m hm]
      exact ih (fun d hd => hz d (List.mem_cons_of_mem c hd)) m hm
  exact this b.channels h 0 le_rfl

/-- C5: normalization scales every sample of every channel by
`gain = 0.89125 / maxPeak`; whenever the buffer has at least one nonzero
sample, the maximum absolute sample afterwards is exactly 0.89125 (in exact
arithmetic), and a buffer whose samples are all zero (or empty) passes
through unchanged (gain 1). -/
theorem normalize_result (b : AudioBuffer) :
    ((∃ c ∈ b.channels, ∃ x ∈ c, x ≠ 0) →
        maxPeak (normalizeBuffer b) = 0.89125)
    ∧ ((∀ c ∈ b.channels, ∀ x ∈ c, x = 0) → normalizeBuffer b = b) := by
  constructor
  · rintro ⟨c, hc, x, hx, hx0⟩
    have hpos := maxPeak_pos hc hx hx0
    rw [maxPeak_normalize]
    unfold normGain
    rw [if_pos hpos, mul_comm, div_mul_cancel₀ _ (ne_of_gt hpos)]
  · intro h
    have h0 : maxPeak b = 0 := maxPeak_of_zeros b h
    have hg : normGain b = 1 := by
      unfold normGain
      rw [h0]
      norm_num
    unfold normalizeBuffer
    rw [hg]
    simp

/-- Witness for C5 at a concrete buffer with a nonzero sample. -/
theorem normalize_result_witness :
    maxPeak (normalizeBuffer ⟨[[1 / 2, 0]], 44100⟩) = 0.89125 :=
  (normalize_result ⟨[[1 / 2, 0]], 44100⟩).1
    ⟨[1 / 2, 0], by simp, 1 / 2, by simp, by norm_num⟩

/-! ### Evaluation lemmas for the concrete witness fixtures -/

theorem maxPeak_peakBuf : maxPeak peakBuf = 713 / 800 := by
  norm_num [maxPeak, peakBuf, abs_of_nonneg]

theorem decodeTrack_peakBuf (id : String) (ty : TrackType) :
    decodeTrack ⟨id, peakBuf, ty⟩ = peakBuf := by
  have hg : normGain peakBuf = 1 := by
    rw [normGain, maxPeak_peakBuf]
    norm_num
  rw [decodeTrack]
  show normalizeBuffer peakBuf = peakBuf
  rw [normalizeBuffer, hg]
  simp [peakBuf]

theorem findCueOut_peakBuf : findCueOut peakBuf (-28) = 0 := by
  have hl : lastHit (fun x => exceedsDb x (-28)) [(713 : ℚ) / 800] = some 0 := by
    norm_num [lastHit, exceedsDb, abs_of_nonneg]
  rw [findCueOut, show AudioBuffer.channelData peakBuf 0 = [(713 : ℚ) / 800] from rfl, hl]
  norm_num [peakBuf]

theorem findCueIn_peakBuf : findCueIn peakBuf (-25) = 0 := by
  have hf : firstHit (fun x => exceedsDb x (-25)) [(713 : ℚ) / 800] = some 0 := by
    norm_num [firstHit, exceedsDb, abs_of_nonneg]
  rw [findCueIn, show AudioBuffer.channelData peakBuf 0 = [(713 : ℚ) / 800] from rfl, hf]
  norm_num [peakBuf]

theorem findMixPoint_peakBuf (t : ℤ) (h : exceedsDb (713 / 800) t = true) :
    findMixPoint peakBuf 0 t = 0 := by
  have hms : mixScanStart peakBuf 0 = 0 := by
    norm_num [mixScanStart, peakBuf]
  have hsd : scanDown (AudioBuffer.channelData peakBuf 0) (fun x => exceedsDb x t) 0
      = some 0 := by
    rw [scanDown]
    rw [dif_pos (by norm_num [peakBuf, AudioBuffer.channelData])]
    rw [if_pos]
    exact h
  rw [findMixPoint]
  simp only [hms]
  norm_num [hsd]

theorem analyzeTrack_peakBuf (id : String) (ty : TrackType) :
    analyzeTrack ⟨id, peakBuf, ty⟩ = ⟨peakBuf, 0, 0, 0, 0, ty⟩ := by
  rw [analyzeTrack]
  rw [show decodeTrack ⟨id, peakBuf, ty⟩ = peakBuf from decodeTrack_peakBuf id ty]
  rw [findCueOut_peakBuf, findCueIn_peakBuf,
    findMixPoint_peakBuf (-15) (by norm_num [exceedsDb, abs_of_nonneg]),
    findMixPoint_peakBuf (-6) (by norm_num [exceedsDb, abs_of_nonneg])]

theorem tailBuf_data :
    AudioBuffer.channelData tailBuf 0
      = [713 / 800, 713 / 8000, 713 / 1600, 713 / 8000, 713 / 8000,
         713 / 8000, 713 / 8000, 713 / 8000, 713 / 8000, 713 / 8000] := rfl

theorem maxPeak_tailBuf : maxPeak tailBuf = 713 / 800 := by
  norm_num [maxPeak, tailBuf, abs_of_nonneg]

theorem decodeTrack_tailBuf (id : String) (ty : TrackType) :
    decodeTrack ⟨id, tailBuf, ty⟩ = tailBuf := by
  have hg : normGain tailBuf = 1 := by
    rw [normGain, maxPeak_tailBuf]
    norm_num
  rw [decodeTrack]
  show normalizeBuffer tailBuf = tailBuf
  rw [normalizeBuffer, hg]
  simp [tailBuf]

theorem findCueOut_tailBuf : findCueOut tailBuf (-28) = 9 := by
  have hl : lastHit (fun x => exceedsDb x (-28)) (AudioBuffer.channelData tailBuf 0)
      = some 9 := by
    rw [tailBuf_data]
    norm_num [lastHit, exceedsDb, abs_of_nonneg]
  rw [findCueOut, hl]
  norm_num [tailBuf]

theorem findCueIn_tailBuf : findCueIn tailBuf (-25) = 0 := by
  have hf : firstHit (fun x => exceedsDb x (-25)) (AudioBuffer.channelData tailBuf 0)
      = some 0 := by
    rw [tailBuf_data]
    norm_num [firstHit, exceedsDb, abs_of_nonneg]
  rw [findCueIn, hf]
  norm_num [tailBuf]

theorem findMixPoint15_tailBuf : findMixPoint tailBuf 9 (-15) = 2 := by
  have hms : mixScanStart tailBuf 9 = 9 := by
    norm_num [mixScanStart, tailBuf]
  have hsd : scanDown (AudioBuffer.channelData tailBuf 0)
      (fun x => exceedsDb x (-15)) 9 = some 2 := by
    rw [tailBuf_data]
    norm_num [scanDown, List.get, exceedsDb, abs_of_nonneg]
  rw [findMixPoint]
  simp only [hms, show (9 : ℤ).toNat = 9 from rfl]
  norm_num [hsd]
  norm_num [tailBuf]

theorem findMixPoint6_tailBuf : findMixPoint tailBuf 9 (-6) = 0 := by
  have hms : mixScanStart tailBuf 9 = 9 := by
    norm_num [mixScanStart, tailBuf]
  have hsd : scanDown (AudioBuffer.channelData tailBuf 0)
      (fun x => exceedsDb x (-6)) 9 = some 0 := by
    rw [tailBuf_data]
    norm_num [scanDown, List.get, exceedsDb, abs_of_nonneg]
  rw [findMixPoint]
  simp only [hms, show (9 : ℤ).toNat = 9 from rfl]
  norm_num [hsd]

theorem analyzeTrack_tailBuf (id : String) (ty : TrackType) :
    analyzeTrack ⟨id, tailBuf, ty⟩ = ⟨tailBuf, 0, 9, 2, 0, ty⟩ := by
  rw [analyzeTrack]
  rw [show decodeTrack ⟨id, tailBuf, ty⟩ = tailBuf from decodeTrack_tailBuf id ty]
  rw [findCueOut_tailBuf, findCueIn_tailBuf, findMixPoint15_tailBuf, findMixPoint6_tailBuf]

/-! ### C2 — timeline order and cursor monotonicity -/

theorem buildEvents_length :
    ∀ (ts : List AnalyzedTrack) (cursor : ℚ),
      (buildEvents cursor ts).length = ts.length := by
  intro ts
  induction ts with
  | nil => intro c; rfl
  | cons t rest ih =>
    intro c
    rw [buildEvents, List.length_cons, ih, List.length_cons]

theorem buildEvents_chain :
    ∀ (ts : List AnalyzedTrack) (cursor : ℚ),
      (∀ s ∈ cursorSteps ts, 0 ≤ s) →
      (buildEvents cursor ts).Chain' (fun e1 e2 => e1.destStart ≤ e2.destStart) := by
  intro ts
  induction ts with
  | nil =>
    intro c _
    exact List.chain'_nil
  | cons t rest ih =>
    intro c h
    have hstep : 0 ≤ safeTimeUntilMix t rest.head? := by
      apply h
      rw [cursorSteps]
      exact List.mem_cons_self _ _
    have htail : ∀ s ∈ cursorSteps rest, 0 ≤ s := by
      intro s hs
      apply h
      rw [cursorSteps]
      exact List.mem_cons_of_mem _ hs
    rw [buildEvents]
    refine List.chain'_cons'.mpr ⟨?_, ih _ htail⟩
    intro e2 he2
    cases rest with
    | nil => simp [buildEvents] at he2
    | cons t2 rest2 =>
      rw [buildEvents] at he2
      simp only [List.head?_cons, Option.mem_def, Option.some.injEq] at he2
      rw [← he2]
      show c ≤ c + safeTimeUntilMix t (t2 :: rest2).head?
      have : 0 ≤ safeTimeUntilMix t (t2 :: rest2).head? := hstep
      linarith

/-- C2 (amended): the timeline produces exactly one event per analyzed clip,
in playlist order, and the master-timeline cursor never moves backward
(`destStart[i+1] ≥ destStart[i]` for adjacent events) whenever every clip's
cursor advance `safeTimeUntilMix = min(effectiveMixPoint − cueIn,
trimDuration)` is nonnegative; a clip whose effective mix point precedes its
cue-in (e.g. a Voice clip trimmed shorter than 0.5 s) makes the advance
negative and moves the cursor backward. -/
theorem timeline_monotone (playlist : List PlaylistEntry) (tracks : List Track)
    (h : ∀ s ∈ cursorSteps (analyzedTracks playlist tracks), 0 ≤ s) :
    (timelineEvents (analyzedTracks playlist tracks)).length
        = (analyzedTracks playlist tracks).length
    ∧ (timelineEvents (analyzedTracks playlist tracks)).Chain'
        (fun e1 e2 => e1.destStart ≤ e2.destStart) :=
  ⟨buildEvents_length _ 0, buildEvents_chain _ 0 h⟩

/-- C2 (counterexample): a playlist of a Voice clip whose trimmed content is
a single sample followed by a Music clip: the Voice clip's effective mix
point is `cueOut - 0.5 < cueIn`, the cursor advances by -0.5, and the second
event's `destStart` is -1/2, strictly below the first event's 0. -/
theorem timeline_monotone_cex :
    ((timelineEvents (analyzedTracks
        [⟨"v", "v", TrackType.voice, 0⟩, ⟨"b", "b", TrackType.music, 0⟩]
        [⟨"v", peakBuf, TrackType.voice⟩, ⟨"b", peakBuf, TrackType.music⟩])).getD 1
          default).destStart
      < ((timelineEvents (analyzedTracks
        [⟨"v", "v", TrackType.voice, 0⟩, ⟨"b", "b", TrackType.music, 0⟩]
        [⟨"v", peakBuf, TrackType.voice⟩, ⟨"b", peakBuf, TrackType.music⟩])).getD 0
          default).destStart := by
  have hA : analyzedTracks
      [⟨"v", "v", TrackType.voice, 0⟩, ⟨"b", "b", TrackType.music, 0⟩]
      [⟨"v", peakBuf, TrackType.voice⟩, ⟨"b", peakBuf, TrackType.music⟩]
      = [⟨peakBuf, 0, 0, 0, 0, TrackType.voice⟩,
         ⟨peakBuf, 0, 0, 0, 0, TrackType.music⟩] := by
    simp [analyzedTracks, trackLookup, analyzeTrack_peakBuf]
  rw [hA]
  simp +decide [timelineEvents, buildEvents, safeTimeUntilMix, effectiveMixPoint]
  norm_num [min_def]

/-- Witness for C2 at a single-clip Music playlist (cursor advance 0). -/
theorem timeline_monotone_witness :
    (timelineEvents (analyzedTracks [⟨"b", "b", TrackType.music, 0⟩]
        [⟨"b", peakBuf, TrackType.music⟩])).length
        = (analyzedTracks [⟨"b", "b", TrackType.music, 0⟩]
            [⟨"b", peakBuf, TrackType.music⟩]).length
    ∧ (timelineEvents (analyzedTracks [⟨"b", "b", TrackType.music, 0⟩]
        [⟨"b", peakBuf, TrackType.music⟩])).Chain'
        (fun e1 e2 => e1.destStart ≤ e2.destStart) :=
  timeline_monotone _ _ (by
    have hA : analyzedTracks [⟨"b", "b", TrackType.music, 0⟩]
        [⟨"b", peakBuf, TrackType.music⟩]
        = [⟨peakBuf, 0, 0, 0, 0, TrackType.music⟩] := by
      simp [analyzedTracks, trackLookup, analyzeTrack_peakBuf]
    rw [hA]
    intro s hs
    rw [cursorSteps, cursorSteps] at hs
    simp only [List.mem_singleton] at hs
    rw [hs]
    simp +decide [safeTimeUntilMix, effectiveMixPoint]
    norm_num [min_def])

/-! ### C6 — long-quiet-tail mix point and overlap -/

theorem findMixPoint_eq (b : AudioBuffer) (co : ℚ) (t : ℤ) :
    (∃ m : ℕ,
        scanDown (b.channelData 0) (fun x => exceedsDb x t) (mixScanStart b co).toNat
            = some m
        ∧ findMixPoint b co t = (m : ℚ) / b.sampleRate)
    ∨ findMixPoint b co t = max 0 (co - 2) := by
  by_cases hneg : mixScanStart b co < 0
  · right
    rw [findMixPoint]
    simp [hneg]
  · cases hscan : scanDown (b.channelData 0) (fun x => exceedsDb x t)
        (mixScanStart b co).toNat with
    | none =>
      right
      rw [findMixPoint]
      simp [hneg, hscan]
    | some m =>
      left
      refine ⟨m, rfl, ?_⟩
      rw [findMixPoint]
      simp [hneg, hscan]

/-- C6: for a non-Voice clip whose analysis has `fadeSlope ≥ 1.5` and a tail
longer than 6 seconds past `mixPoint15`, followed by a Music successor, the
effective mix point is `cueOut - 6`; in the resulting two-clip timeline the
overlap `destEnd₀ - destStart₁` equals exactly 6 seconds, and 6 never exceeds
the clip's trimmed duration `cueOut - cueIn`. -/
theorem mixTail6_overlap (t1 t2 : Track)
    (hsr : 0 < t1.buffer.sampleRate)
    (h1 : t1.type ≠ TrackType.voice) (h2 : t2.type = TrackType.music)
    (hslope : 1.5 ≤ |(analyzeTrack t1).mixPoint15 - (analyzeTrack t1).mixPoint6|)
    (htail : 6 < (analyzeTrack t1).cueOut - (analyzeTrack t1).mixPoint15) :
    effectiveMixPoint (analyzeTrack t1) (some (analyzeTrack t2))
        = (analyzeTrack t1).cueOut - 6
    ∧ ((timelineEvents [analyzeTrack t1, analyzeTrack t2]).getD 0 default).destEnd
        - ((timelineEvents [analyzeTrack t1, analyzeTrack t2]).getD 1
            default).destStart = 6
    ∧ 6 ≤ (analyzeTrack t1).cueOut - (analyzeTrack t1).cueIn := by
  have hsr' : 0 < (decodeTrack t1).sampleRate := hsr
  -- the analyzed fields, unfolded to the analysis functions (definitional)
  have hm15 : (analyzeTrack t1).mixPoint15
      = findMixPoint (decodeTrack t1) (findCueOut (decodeTrack t1) (-28)) (-15) := rfl
  have hci : (analyzeTrack t1).cueIn = findCueIn (decodeTrack t1) (-25) := rfl
  have hco : (analyzeTrack t1).cueOut = findCueOut (decodeTrack t1) (-28) := rfl
  -- cueIn ≤ mixPoint15: the tail bound rules out the fallback, and a found
  -- index passes -15 dB, hence -25 dB, hence lies at or after the cue-in index
  have hcmp : (analyzeTrack t1).cueIn ≤ (analyzeTrack t1).mixPoint15 := by
    rcases findMixPoint_eq (decodeTrack t1) (findCueOut (decodeTrack t1) (-28)) (-15)
      with ⟨m, hscan, heq⟩ | heq
    · obtain ⟨hlt, hp, -⟩ :=
        scanDown_some (p := fun x => exceedsDb x (-15)) hscan
      have hp25 : exceedsDb (((decodeTrack t1).channelData 0).get ⟨m, hlt⟩) (-25) = true :=
        exceedsDb_mono (by norm_num) hp
      obtain ⟨j, hj, hji⟩ := firstHit_le (p := fun x => exceedsDb x (-25)) hlt hp25
      rw [hci, hm15, heq, findCueIn, hj]
      exact (div_le_div_iff_of_pos_right hsr').mpr (by exact_mod_cast hji)
    · exfalso
      rw [hm15, heq, hco] at htail
      have := le_max_right (0 : ℚ) (findCueOut (decodeTrack t1) (-28) - 2)
      linarith
  have htrim : 6 < (analyzeTrack t1).cueOut - (analyzeTrack t1).cueIn := by
    linarith
  -- the effective mix point
  have htyB : (analyzeTrack t2).type = TrackType.music := h2
  have htyA : ¬ ((analyzeTrack t1).type = TrackType.voice) := h1
  have hns : ¬ (|(analyzeTrack t1).mixPoint15 - (analyzeTrack t1).mixPoint6|
      < 1.5) := not_lt.mpr hslope
  have hemp : effectiveMixPoint (analyzeTrack t1) (some (analyzeTrack t2))
      = (analyzeTrack t1).cueOut - 6 := by
    simp [effectiveMixPoint, htyB, htyA, hns, htail]
  have hstep : safeTimeUntilMix (analyzeTrack t1) (some (analyzeTrack t2))
      = (analyzeTrack t1).cueOut - 6 - (analyzeTrack t1).cueIn := by
    rw [safeTimeUntilMix, hemp]
    rw [min_eq_left (by linarith)]
  have hgoal : ((timelineEvents [analyzeTrack t1, analyzeTrack t2]).getD 0
        default).destEnd
      - ((timelineEvents [analyzeTrack t1, analyzeTrack t2]).getD 1
        default).destStart = 6 := by
    rw [timelineEvents, buildEvents, buildEvents]
    simp only [List.getD_cons_zero, List.getD_cons_succ, List.head?_cons]
    rw [hstep]
    ring
  exact ⟨hemp, hgoal, htrim.le⟩

/-- Witness for C6 at the concrete long-tail fixture. -/
theorem mixTail6_overlap_witness :
    effectiveMixPoint (analyzeTrack ⟨"a", tailBuf, TrackType.music⟩)
        (some (analyzeTrack ⟨"b", peakBuf, TrackType.music⟩))
        = (analyzeTrack ⟨"a", tailBuf, TrackType.music⟩).cueOut - 6
    ∧ ((timelineEvents [analyzeTrack ⟨"a", tailBuf, TrackType.music⟩,
          analyzeTrack ⟨"b", peakBuf, TrackType.music⟩]).getD 0 default).destEnd
        - ((timelineEvents [analyzeTrack ⟨"a", tailBuf, TrackType.music⟩,
            analyzeTrack ⟨"b", peakBuf, TrackType.music⟩]).getD 1
              default).destStart = 6
    ∧ 6 ≤ (analyzeTrack ⟨"a", tailBuf, TrackType.music⟩).cueOut
        - (analyzeTrack ⟨"a", tailBuf, TrackType.music⟩).cueIn :=
  mixTail6_overlap ⟨"a", tailBuf, TrackType.music⟩ ⟨"b", peakBuf, TrackType.music⟩
    (by norm_num [tailBuf])
    (by simp +decide)
    rfl
    (by rw [analyzeTrack_tailBuf]; norm_num)
    (by rw [analyzeTrack_tailBuf]; norm_num)

/-! ### C7 — empty resolved playlist and skipped entries -/

/-- C7: when no playlist entry resolves to a known track (in particular for an
empty playlist), `generateMasterBuffer` returns the 1-second silent stereo
buffer at 44100 Hz (2 channels of exactly 44100 zero samples); and an entry
whose identity is unknown is skipped silently, contributing no analyzed track
(hence no event and no duration). -/
theorem emptyPlaylist_silent (playlist : List PlaylistEntry) (tracks : List Track)
    (settings : AppSettings)
    (h : ∀ e ∈ playlist, trackLookup tracks e.trackId = none) :
    generateMasterBuffer playlist tracks settings = createBuffer 2 44100 44100
    ∧ (createBuffer 2 44100 44100).channels.length = 2
    ∧ (∀ c ∈ (createBuffer 2 44100 44100).channels,
        c.length = 44100 ∧ ∀ x ∈ c, x = 0)
    ∧ (∀ (p1 p2 : List PlaylistEntry) (e : PlaylistEntry),
        trackLookup tracks e.trackId = none →
          analyzedTracks (p1 ++ e :: p2) tracks = analyzedTracks (p1 ++ p2) tracks) := by
  have hempty : analyzedTracks playlist tracks = [] := by
    unfold analyzedTracks
    rw [List.filterMap_eq_nil_iff]
    intro e he
    rw [h e he]
    rfl
  refine ⟨?_, rfl, ?_, ?_⟩
  · rw [generateMasterBuffer]
    simp [hempty]
  · intro c hc
    rw [show (createBuffer 2 44100 44100).channels
        = List.replicate 2 (List.replicate 44100 (0 : ℚ)) from rfl] at hc
    have hc' := List.eq_of_mem_replicate hc
    subst hc'
    exact ⟨List.length_replicate _ _, fun x hx => List.eq_of_mem_replicate hx⟩
  · intro p1 p2 e he
    unfold analyzedTracks
    rw [List.filterMap_append, List.filterMap_append, List.filterMap_cons]
    simp [he]

/-- Witness for C7: a one-entry playlist over an empty track library. -/
theorem emptyPlaylist_silent_witness :
    generateMasterBuffer [⟨"a", "a", TrackType.music, 0⟩] [] ⟨55, 4, 3, 3, 2, 2⟩
      = createBuffer 2 44100 44100 :=
  (emptyPlaylist_silent [⟨"a", "a", TrackType.music, 0⟩] [] ⟨55, 4, 3, 3, 2, 2⟩
    (fun _ _ => rfl)).1

/-! ### C9 — noninterference of settings and crossfade hints -/

/-- C9: the master buffer produced by `generateMasterBuffer` is identical for
any two values of the settings argument and for any reassignment of every
entry's crossfade-duration hint: the computed timeline (and hence the render)
depends only on the track identities and the signal analysis, never on the
hint or the settings. -/
theorem noninterference (playlist : List PlaylistEntry) (tracks : List Track)
    (s1 s2 : AppSettings) (f : PlaylistEntry → ℚ) :
    generateMasterBuffer
        (playlist.map fun e =>
          { trackId := e.trackId, trackName := e.trackName, type := e.type,
            crossfadeDuration := f e }) tracks s1
      = generateMasterBuffer playlist tracks s2 := by
  have hA : analyzedTracks
      (playlist.map fun e =>
        { trackId := e.trackId, trackName := e.trackName, type := e.type,
          crossfadeDuration := f e }) tracks
      = analyzedTracks playlist tracks := by
    unfold analyzedTracks
    rw [List.filterMap_map]
    rfl
  rw [generateMasterBuffer, generateMasterBuffer, hA]

/-! ### C10 — master buffer shape -/

/-- C10: whenever at least one entry resolves, the rendered master is a
2-channel buffer at 44100 Hz whose per-channel sample count is exactly
`ceil(totalLength * 44100)` (as a natural number), `totalLength` being the
`destEnd` of the last timeline event. -/
theorem master_shape (playlist : List PlaylistEntry) (tracks : List Track)
    (settings : AppSettings) (h : analyzedTracks playlist tracks ≠ []) :
    (generateMasterBuffer playlist tracks settings).channels.length = 2
    ∧ (generateMasterBuffer playlist tracks settings).sampleRate = 44100
    ∧ (∀ c ∈ (generateMasterBuffer playlist tracks settings).channels,
        c.length = (⌈((timelineEvents (analyzedTracks playlist tracks)).getLastD
            default).destEnd * 44100⌉).toNat) := by
  rw [generateMasterBuffer]
  rw [if_neg (fun hl => h (List.length_eq_zero.mp hl))]
  refine ⟨rfl, rfl, ?_⟩
  intro c hc
  rw [renderMaster] at hc
  simp only [List.mem_cons, List.mem_singleton, List.not_mem_nil, or_false] at hc
  rcases hc with rfl | rfl <;>
    simp [List.length_map, List.length_range]

/-- Witness for C10 at a concrete one-clip playlist. -/
theorem master_shape_witness :
    (generateMasterBuffer [⟨"b", "b", TrackType.music, 0⟩]
        [⟨"b", peakBuf, TrackType.music⟩] ⟨55, 4, 3, 3, 2, 2⟩).channels.length = 2
    ∧ (generateMasterBuffer [⟨"b", "b", TrackType.music, 0⟩]
        [⟨"b", peakBuf, TrackType.music⟩] ⟨55, 4, 3, 3, 2, 2⟩).sampleRate = 44100
    ∧ (∀ c ∈ (generateMasterBuffer [⟨"b", "b", TrackType.music, 0⟩]
        [⟨"b", peakBuf, TrackType.music⟩] ⟨55, 4, 3, 3, 2, 2⟩).channels,
        c.length = (⌈((timelineEvents (analyzedTracks [⟨"b", "b", TrackType.music, 0⟩]
            [⟨"b", peakBuf, TrackType.music⟩])).getLastD
            default).destEnd * 44100⌉).toNat) :=
  master_shape [⟨"b", "b", TrackType.music, 0⟩] [⟨"b", peakBuf, TrackType.music⟩]
    ⟨55, 4, 3, 3, 2, 2⟩
    (by
      have hA : analyzedTracks [⟨"b", "b", TrackType.music, 0⟩]
          [⟨"b", peakBuf, TrackType.music⟩]
          = [⟨peakBuf, 0, 0, 0, 0, TrackType.music⟩] := by
        simp [analyzedTracks, trackLookup, analyzeTrack_peakBuf]
      rw [hA]
      exact List.cons_ne_nil _ _)

end MixToPlay
